import Mathlib

/-!
Verification of the BalatroTUI rules engine against its specification.

The definitions below are a shallow embedding of the Rust sources:
  - `balatro_tui_core/src/card.rs`   (ranks, suits, cards, sorting, grouping)
  - `balatro_tui_core/src/scorer.rs` (straight test, hand classification, scoring)
  - `balatro_tui_core/src/blind.rs`  (target-score formula)
  - `balatro_tui_core/src/deck.rs`   (random draw)
  - `balatro_tui_core/src/round.rs`  (play_hand / deal_cards)
  - `balatro_tui/src/game.rs`        (run/round event handlers)
  - `balatro_tui_widgets/src/card_list.rs` (selection state)

Machine integers (`usize`) are modelled as `Nat` with explicit overflow checks
against `2^64 - 1`; fallible Rust functions return `Except Err` or `Option`.
The `HashMap`-based groupings of `grouped_by_rank` / `grouped_by_suit` have an
unspecified iteration order in the source, so they are modelled by a predicate
(`IsRankGrouping` / `IsSuitGrouping`) characterising exactly the guarantees the
source provides: distinct keys, counts matching the card multiset, and counts
pairwise non-increasing along the list.
-/

set_option maxHeartbeats 4000000

namespace Balatro

/-- Card suits, from `card.rs` (`enum Suit`: Club, Diamond, Heart, Spade). -/
inductive Suit where
  | Club
  | Diamond
  | Heart
  | Spade
deriving DecidableEq, Repr, Fintype

/-- Card ranks, from `card.rs` (`enum Rank`, `#[repr(usize)]`, `Ace = 1`). -/
inductive Rank where
  | Ace
  | Two
  | Three
  | Four
  | Five
  | Six
  | Seven
  | Eight
  | Nine
  | Ten
  | Jack
  | Queen
  | King
deriving DecidableEq, Repr, Fintype

/-- The `#[repr(usize)]` discriminant of `Rank` (`Ace = 1`, ..., `King = 13`);
this is the value used by the `Add`/`Sub` impls on `Rank`. -/
def rankOrdinal : Rank → Nat
  | .Ace => 1
  | .Two => 2
  | .Three => 3
  | .Four => 4
  | .Five => 5
  | .Six => 6
  | .Seven => 7
  | .Eight => 8
  | .Nine => 9
  | .Ten => 10
  | .Jack => 11
  | .Queen => 12
  | .King => 13

/-- `Rank::get_score()` from `card.rs`: the strum `score` property of each
variant (`2`..`10` at face value; Ace and the face cards score `10`).
The Rust accessor returns `Result` but is total on every variant. -/
def rankScore : Rank → Nat
  | .Ace => 10
  | .Two => 2
  | .Three => 3
  | .Four => 4
  | .Five => 5
  | .Six => 6
  | .Seven => 7
  | .Eight => 8
  | .Nine => 9
  | .Ten => 10
  | .Jack => 10
  | .Queen => 10
  | .King => 10

/-- `impl Ord for Rank` from `card.rs`, transcribed literally: an `Ace` on the
left immediately returns `Greater` - even against another `Ace` - otherwise an
`Ace` on the right returns `Less`, and all remaining pairs compare by
discriminant. -/
def rankCmp (a b : Rank) : Ordering :=
  if a = .Ace then .gt
  else if b = .Ace then .lt
  else compare (rankOrdinal a) (rankOrdinal b)

/-- Rank value with Ace counted high (Ace ↦ 14, others at their discriminant).
For every pair other than `(Ace, Ace)`, `rankCmp a b = compare (hiVal a)
(hiVal b)`; at `(Ace, Ace)` the source's `Ord` is inconsistent (see `rankCmp`). -/
def hiVal (r : Rank) : Nat := if r = .Ace then 14 else rankOrdinal r

/-- Rank value with Ace counted low: the plain discriminant (Ace ↦ 1). -/
def loVal (r : Rank) : Nat := rankOrdinal r

/-- Position of a suit in the derived `Ord for Suit` (declaration order). -/
def suitOrdinal : Suit → Nat
  | .Club => 0
  | .Diamond => 1
  | .Heart => 2
  | .Spade => 3

/-- A card, from `card.rs` (`struct Card { rank, suit }`). -/
structure Card where
  rank : Rank
  suit : Suit
deriving DecidableEq, Repr

/-- Sort key realising `sort_by_key(|card| (Reverse(card.rank), card.suit))`
from `Sortable::sort_by_rank` in `card.rs`: descending rank (Ace high) first,
then ascending suit.  Encoded as a single `Nat` (the suit component is `< 4`),
which is injective on `Card`, so the sort below is the unique sorted
arrangement.  The source's comparator is inconsistent on `(Ace, Ace)` rank
pairs (see `rankCmp`), where the relative order of distinct Ace cards is
unspecified; no consumer of the sorted list distinguishes that case, and this
embedding orders such ties by suit. -/
def rankSortKey (c : Card) : Nat := (14 - hiVal c.rank) * 4 + suitOrdinal c.suit

/-- The comparison `sort_by_rank` sorts by (non-strict, total). -/
def cardLeByRank (a b : Card) : Prop := rankSortKey a ≤ rankSortKey b

instance : DecidableRel cardLeByRank := fun _ _ => Nat.decLe _ _

instance : IsTotal Card cardLeByRank := ⟨fun _ _ => Nat.le_total _ _⟩

instance : IsTrans Card cardLeByRank := ⟨fun _ _ _ => Nat.le_trans⟩

/-- `Sortable::sorted_by_rank` from `card.rs`: a stable sort by
`(Reverse(rank), suit)`. -/
def sortedByRank (cards : List Card) : List Card := cards.insertionSort cardLeByRank

/-- Number of cards of rank `r` in `cards` (the multiplicity that
`grouped_by_rank`'s `HashMap` accumulates for key `r`). -/
def countRank (cards : List Card) (r : Rank) : Nat :=
  (cards.filter (fun c => c.rank == r)).length

/-- Number of cards of suit `s` in `cards`. -/
def countSuit (cards : List Card) (s : Suit) : Nat :=
  (cards.filter (fun c => c.suit == s)).length

/-- Characterisation of the possible outputs of `Sortable::grouped_by_rank`
from `card.rs`.  The source folds the cards into a `HashMap<Rank, usize>` of
multiplicities and then sorts the `(key, count)` pairs by count (stable
ascending sort followed by `rev()`).  Since `HashMap` iteration order is
unspecified, the source guarantees exactly: the keys are the distinct ranks
present, each paired with its multiplicity, and the counts are non-increasing.
Equal-count groups may appear in any order. -/
def IsRankGrouping (cards : List Card) (g : List (Rank × Nat)) : Prop :=
  (g.map Prod.fst).Nodup
    ∧ (∀ p ∈ g, p.2 = countRank cards p.1 ∧ 0 < p.2)
    ∧ (∀ r : Rank, 0 < countRank cards r → r ∈ g.map Prod.fst)
    ∧ g.Pairwise (fun a b => b.2 ≤ a.2)

/-- Characterisation of the possible outputs of `Sortable::grouped_by_suit`
from `card.rs` (same construction as `IsRankGrouping`, keyed by suit). -/
def IsSuitGrouping (cards : List Card) (g : List (Suit × Nat)) : Prop :=
  (g.map Prod.fst).Nodup
    ∧ (∀ p ∈ g, p.2 = countSuit cards p.1 ∧ 0 < p.2)
    ∧ (∀ s : Suit, 0 < countSuit cards s → s ∈ g.map Prod.fst)
    ∧ g.Pairwise (fun a b => b.2 ≤ a.2)

instance (cards : List Card) (g : List (Rank × Nat)) :
    Decidable (IsRankGrouping cards g) :=
  inferInstanceAs (Decidable ((g.map Prod.fst).Nodup
    ∧ (∀ p ∈ g, p.2 = countRank cards p.1 ∧ 0 < p.2)
    ∧ (∀ r : Rank, 0 < countRank cards r → r ∈ g.map Prod.fst)
    ∧ g.Pairwise (fun (a b : Rank × Nat) => b.2 ≤ a.2)))

instance (cards : List Card) (g : List (Suit × Nat)) :
    Decidable (IsSuitGrouping cards g) :=
  inferInstanceAs (Decidable ((g.map Prod.fst).Nodup
    ∧ (∀ p ∈ g, p.2 = countSuit cards p.1 ∧ 0 < p.2)
    ∧ (∀ s : Suit, 0 < countSuit cards s → s ∈ g.map Prod.fst)
    ∧ g.Pairwise (fun (a b : Suit × Nat) => b.2 ≤ a.2)))

/-- `struct StraightTestReport` from `scorer.rs`: `high_ace` is `none` when no
Ace participated, `some false` for a low-Ace straight (5,4,3,2,A) and
`some true` for a high-Ace straight (A,K,Q,J,10); `scoredRanks` collects the
ranks that score. -/
structure StraightTestReport where
  highAce : Option Bool
  scoredRanks : List Rank
deriving DecidableEq, Repr

/-- `Scorer::test_straight` from `scorer.rs`, on the rank list of its input
(the source reads its `&[Card]` argument only through `card.rank`).  The
non-Ace ranks are kept in input order, each is subtracted from the first one
(`impl Sub for Rank`, on discriminants), and the resulting comparator vector
is matched against the exact patterns `[0,1,2,3,4]` (plain straight on a
descending-sorted input) and `[0,1,2,3]` plus an Ace adjacent to `Two`
(low straight) or `King` (high straight).  The source's
`collect::<Option<Vec<_>>>()?` on the comparator is `Option.bind`. -/
def testStraightRanks (ranks : List Rank) : Option StraightTestReport :=
  let hasAce := ranks.any (fun r => r == Rank.Ace)
  let ranksWithoutAce := ranks.filter (fun r => !(r == Rank.Ace))
  let comparator : Option (List Int) :=
    ranksWithoutAce.mapM (fun r =>
      ranksWithoutAce.head?.map
        (fun f => (rankOrdinal f : Int) - (rankOrdinal r : Int)))
  comparator.bind fun comp =>
    if comp.length < 4 then none
    else if comp = [0, 1, 2, 3, 4] then some ⟨none, ranksWithoutAce⟩
    else
      let isPartialStraight := comp = [0, 1, 2, 3]
      if hasAce ∧ isPartialStraight ∧ ranks.any (fun r => r == Rank.Two) then
        some ⟨some false, ranksWithoutAce ++ [Rank.Ace]⟩
      else if hasAce ∧ isPartialStraight ∧ ranks.any (fun r => r == Rank.King) then
        some ⟨some true, Rank.Ace :: ranksWithoutAce⟩
      else none

/-- `Scorer::test_straight` on a list of cards. -/
def testStraight (cards : List Card) : Option StraightTestReport :=
  testStraightRanks (cards.map (·.rank))

/-- `enum ScoringHand` from `scorer.rs`, in scoring-precedence order. -/
inductive ScoringHand where
  | FlushFive
  | FlushHouse
  | FiveOfAKind
  | RoyalFlush
  | StraightFlush
  | FourOfAKind
  | FullHouse
  | Flush
  | Straight
  | ThreeOfAKind
  | TwoPair
  | Pair
  | HighCard
deriving DecidableEq, Repr

/-- `Scorer::get_chips_and_multiplier` from `scorer.rs`: the strum
`chips` / `multiplier` properties of each `ScoringHand` variant.  The Rust
accessor returns `Result` but is total on every variant. -/
def chipsAndMult : ScoringHand → Nat × Nat
  | .FlushFive => (160, 16)
  | .FlushHouse => (140, 14)
  | .FiveOfAKind => (120, 12)
  | .RoyalFlush => (100, 8)
  | .StraightFlush => (60, 7)
  | .FourOfAKind => (40, 4)
  | .FullHouse => (35, 4)
  | .Flush => (30, 4)
  | .Straight => (30, 3)
  | .ThreeOfAKind => (20, 2)
  | .TwoPair => (20, 2)
  | .Pair => (10, 2)
  | .HighCard => (5, 1)

/-- `rank_groups[1].1 == n` guarded by `rank_groups.len() >= 2`, as the
classification chain writes it. -/
def sndCountIs (r1? : Option (Rank × Nat)) (n : Nat) : Prop :=
  match r1? with
  | some r1 => r1.2 = n
  | none => False

instance (r1? : Option (Rank × Nat)) (n : Nat) : Decidable (sndCountIs r1? n) :=
  match r1? with
  | some r1 => inferInstanceAs (Decidable (r1.2 = n))
  | none => inferInstanceAs (Decidable False)

/-- `vec![rank_groups[1].0; rank_groups[1].1]` (empty when there is no second
group; the chain only uses it under `sndCountIs`). -/
def sndRanks (r1? : Option (Rank × Nat)) : List Rank :=
  match r1? with
  | some r1 => List.replicate r1.2 r1.1
  | none => []

/-- The decision chain of `Scorer::get_scoring_hand` from `scorer.rs`, after
the groups have been computed: `r0` is `rank_groups[0]`, `r1?` is
`rank_groups.get(1)`, `suitMax` is `suit_groups[0].1`, `straightRes` is the
`test_straight` result on the rank-sorted cards, and `cards` is the original
argument (used verbatim by the `Flush` branch). -/
def classify (r0 : Rank × Nat) (r1? : Option (Rank × Nat)) (suitMax : Nat)
    (straightRes : Option StraightTestReport) (cards : List Card) :
    Option ScoringHand × List Rank :=
  if suitMax = 5 ∧ r0.2 = 5 then
    (some .FlushFive, List.replicate r0.2 r0.1)
  else if suitMax = 5 ∧ r0.2 = 3 ∧ sndCountIs r1? 2 then
    (some .FlushHouse, List.replicate r0.2 r0.1 ++ sndRanks r1?)
  else if r0.2 = 5 then
    (some .FiveOfAKind, List.replicate r0.2 r0.1)
  else
    match (if suitMax = 5 then straightRes else none) with
    | some res =>
      if res.highAce.getD false then (some .RoyalFlush, res.scoredRanks)
      else (some .StraightFlush, res.scoredRanks)
    | none =>
      if r0.2 = 4 then
        (some .FourOfAKind, List.replicate r0.2 r0.1)
      else if r0.2 = 3 ∧ sndCountIs r1? 2 then
        (some .FullHouse, List.replicate r0.2 r0.1 ++ sndRanks r1?)
      else if suitMax = 5 then
        (some .Flush, cards.map (·.rank))
      else
        match straightRes with
        | some res => (some .Straight, res.scoredRanks)
        | none =>
          if r0.2 = 3 then
            (some .ThreeOfAKind, List.replicate r0.2 r0.1)
          else if r0.2 = 2 ∧ sndCountIs r1? 2 then
            (some .TwoPair, List.replicate r0.2 r0.1 ++ sndRanks r1?)
          else if r0.2 = 2 then
            (some .Pair, List.replicate r0.2 r0.1)
          else
            (some .HighCard, List.replicate r0.2 r0.1)

/-- `Scorer::get_scoring_hand` from `scorer.rs`, parametrised by the rank and
suit groupings (whose order the `HashMap`-based source leaves unspecified; see
`IsRankGrouping`).  Empty groupings - which valid groupings produce exactly for
an empty card list - return `(none, [])`, matching the source's
`is_empty()` early return. -/
def getScoringHand (rg : List (Rank × Nat)) (sg : List (Suit × Nat))
    (cards : List Card) : Option ScoringHand × List Rank :=
  match rg, sg with
  | [], _ => (none, [])
  | _ :: _, [] => (none, [])
  | r0 :: rtail, s0 :: _ =>
    classify r0 rtail.head? s0.2 (testStraight (sortedByRank cards)) cards

/-! ### Checked `usize` arithmetic and the error taxonomy -/

/-- `usize::MAX` on the 64-bit targets the program is built for. -/
def USIZE_MAX : Nat := 2 ^ 64 - 1

/-- `usize::checked_add`. -/
def checkedAdd (a b : Nat) : Option Nat :=
  if a + b ≤ USIZE_MAX then some (a + b) else none

/-- `usize::checked_mul`. -/
def checkedMul (a b : Nat) : Option Nat :=
  if a * b ≤ USIZE_MAX then some (a * b) else none

/-- `usize::checked_sub`. -/
def checkedSub (a b : Nat) : Option Nat :=
  if b ≤ a then some (a - b) else none

/-- The error values the modelled operations can produce, drawn from
`balatro_tui_core/src/error.rs` (`CoreError`, `ScorerError`,
`ArithmeticError`) plus the `eyre!`-style string errors of `scorer.rs`
(`EmptyHandScored` stands for "Attempted to score with no cards") and the
card-parsing failures of `card.rs` (`MalformedCard`). -/
inductive Err where
  | HandsExhaustedError
  | DiscardsExhaustedError
  | AnteExceeded (ante : Nat)
  | Overflow (op : String)
  | EmptyHandScored
  | MalformedCard (s : String)
deriving DecidableEq, Repr

instance {ε α : Type} [DecidableEq ε] [DecidableEq α] : DecidableEq (Except ε α) :=
  fun x y =>
    match x, y with
    | .ok a, .ok b => decidable_of_iff (a = b) (by simp)
    | .error a, .error b => decidable_of_iff (a = b) (by simp)
    | .ok _, .error _ => isFalse (by simp)
    | .error _, .ok _ => isFalse (by simp)

/-! ### Scoring -/

/-- `Scorer::score_chips_from_ranks` from `scorer.rs`:
`try_fold(0, |acc, rank| rank.get_score()?.checked_add(acc))`. -/
def scoreChipsFromRanks (ranks : List Rank) : Option Nat :=
  ranks.foldlM (fun acc r => checkedAdd (rankScore r) acc) 0

/-- `Scorer::score_cards` from `scorer.rs`: classify, look up base chips and
multiplier, add the rank scores with checked addition, and multiply with
checked multiplication.  Classifying an empty hand yields `(none, [])`, turned
into the "Attempted to score with no cards" error. -/
def scoreCards (cards : List Card) (rg : List (Rank × Nat))
    (sg : List (Suit × Nat)) : Except Err Nat :=
  match getScoringHand rg sg cards with
  | (none, _) => .error .EmptyHandScored
  | (some sh, scoredRanks) =>
    let bm := chipsAndMult sh
    match scoreChipsFromRanks scoredRanks with
    | none => .error (.Overflow "addition")
    | some chipsIncrement =>
      match checkedAdd bm.1 chipsIncrement with
      | none => .error (.Overflow "addition")
      | some s =>
        match checkedMul s bm.2 with
        | none => .error (.Overflow "multiplication")
        | some v => .ok v

/-! ### Blinds and target scores -/

/-- `enum Bosses` from `blind.rs`. -/
inductive Bosses where
  | Hook
  | Ox
  | House
  | Wall
  | Wheel
  | Arm
  | Club
  | Fish
  | Psychic
  | Goad
  | Water
  | Window
  | Manacle
  | Eye
  | Mouth
  | Plant
  | Serpent
  | Pillar
  | Needle
  | Head
  | Tooth
  | Flint
  | Mark
deriving DecidableEq, Repr

/-- `enum Blind` from `blind.rs`. -/
inductive Blind where
  | Small
  | Big
  | Boss (boss : Bosses)
deriving DecidableEq, Repr

/-- The strum `score_multiplier` property of each `Blind` variant. -/
def scoreMultiplier : Blind → Nat
  | .Small => 2
  | .Big => 3
  | .Boss _ => 4

/-- `BLIND_BASE_AMOUNTS` from `blind.rs`. -/
def BLIND_BASE_AMOUNTS : List Nat := [3, 8, 20, 50, 110, 200, 350, 500]

/-- `Blind::get_target_score` from `blind.rs`, transcribed literally: the
guard rejects `ante >= BLIND_BASE_AMOUNTS.len()` (that is, `ante >= 8`), then
`25 * score_multiplier * boss_multiplier * BLIND_BASE_AMOUNTS[ante - 1]` with
checked arithmetic.  The Rust `ante` is `NonZeroUsize`; it is modelled as a
plain `Nat`, with theorems quantifying over `1 ≤ ante` where relevant. -/
def getTargetScore (blind : Blind) (ante : Nat) : Except Err Nat :=
  if ante ≥ BLIND_BASE_AMOUNTS.length then .error (.AnteExceeded ante)
  else
    let blindMultiple := scoreMultiplier blind
    let bossBlindMultiplier :=
      match blind with
      | .Boss b => if b = .Wall then 4 else if b = .Needle then 1 else 2
      | _ => 2
    match checkedMul 25 blindMultiple with
    | none => .error (.Overflow "multiplication")
    | some a =>
      match checkedMul a bossBlindMultiplier with
      | none => .error (.Overflow "multiplication")
      | some b =>
        match checkedSub ante 1 with
        | none => .error (.Overflow "subtraction")
        | some idx =>
          match BLIND_BASE_AMOUNTS.get? idx with
          | none => .error (.AnteExceeded ante)
          | some baseAmount =>
            match checkedMul b baseAmount with
            | none => .error (.Overflow "multiplication")
            | some v => .ok v

/-! ### Deck -/

/-- `DeckExt::draw_random` from `deck.rs`.  The in-place `shuffle()` draws from
`thread_rng`, so it is modelled by an explicit `shuffle` parameter; theorems
constrain it to permute its input where that matters.  The guard runs before
any mutation; on success the drawn cards are drained from the end of the
shuffled deck.  Returns `(drawn cards, remaining deck)`.  The undersized-deck
error is the `CoreError::HandsExhaustedError` variant the source returns. -/
def drawRandom (shuffle : List Card → List Card) (deck : List Card)
    (drawSize : Nat) : Except Err (List Card × List Card) :=
  if drawSize > deck.length then .error .HandsExhaustedError
  else
    let shuffled := shuffle deck
    match checkedSub shuffled.length drawSize with
    | none => .error (.Overflow "subtraction")
    | some drainSize => .ok (shuffled.drop drainSize, shuffled.take drainSize)

/-! ### Round state and `play_hand` -/

/-- The mutable fields of `struct Round` from `round.rs` that its methods
read or write (`properties` and `blind` are never touched by
`play_hand`/`discard_hand`/`deal_cards` and are carried by `RunSt` instead). -/
structure RoundSt where
  handsCount : Nat
  discardsCount : Nat
  score : Nat
  hand : List Card
  history : List Card
  deck : List Card
deriving DecidableEq, Repr

/-- `Round::deal_cards` from `round.rs`: draw as many cards as were just
played/discarded, append the played cards to the history, append the drawn
cards to the hand and re-sort it.  Rust methods mutate `&mut self` and return
`Result<()>`; this is modelled as `(state after the call, optional error)`,
so mutations made before an error persist, exactly as in the source. -/
def dealCards (shuffle : List Card → List Card) (lastCards : List Card)
    (st : RoundSt) : RoundSt × Option Err :=
  match drawRandom shuffle st.deck lastCards.length with
  | .error e => (st, some e)
  | .ok (newCards, remainingDeck) =>
    ({ st with
        deck := remainingDeck
        history := st.history ++ lastCards
        hand := sortedByRank (st.hand ++ newCards) }, none)

/-- `Round::play_hand` from `round.rs`: fails fast when no hands remain, then
decrements `hands_count`, scores the played cards (propagating scorer
errors - after the decrement already happened), adds the score with checked
addition, and redeals.  `rg`/`sg` are the groupings `get_scoring_hand`
computes for `playedCards` (see `IsRankGrouping`). -/
def playHand (shuffle : List Card → List Card) (rg : List (Rank × Nat))
    (sg : List (Suit × Nat)) (playedCards : List Card) (st : RoundSt) :
    RoundSt × Option Err :=
  if st.handsCount = 0 then (st, some .HandsExhaustedError)
  else
    match checkedSub st.handsCount 1 with
    | none => (st, some (.Overflow "subtraction"))
    | some hc =>
      let st1 := { st with handsCount := hc }
      match scoreCards playedCards rg sg with
      | .error e => (st1, some e)
      | .ok s =>
        match checkedAdd st.score s with
        | none => (st1, some (.Overflow "addition"))
        | some sc => dealCards shuffle playedCards { st1 with score := sc }

/-- `IterIndexExt::drain_from_index_set` from `iter_index_ext.rs`: partition
the enumerated list into the elements whose index is in the set (returned)
and the rest (kept), both in list order. -/
def drainFromIndexSet (indexSet : Finset Nat) (cards : List Card) :
    List Card × List Card :=
  ((cards.enum.filter (fun p => p.1 ∈ indexSet)).map Prod.snd,
   (cards.enum.filter (fun p => p.1 ∉ indexSet)).map Prod.snd)

/-- The `KeyCode::Enter` arm of `Game::handle_round_events` from `game.rs`:
when hands remain, drain the selected indices out of the hand, return early -
with no further state change - if nothing was selected, and otherwise call
`Round::play_hand` on the drained cards.  (The widget-state `set_cards`
refresh after a successful play touches only UI selection state.) -/
def handleRoundPlay (shuffle : List Card → List Card) (rg : List (Rank × Nat))
    (sg : List (Suit × Nat)) (sel : Finset Nat) (st : RoundSt) :
    RoundSt × Option Err :=
  if st.handsCount ≠ 0 then
    let drained := drainFromIndexSet sel st.hand
    let st1 := { st with hand := drained.2 }
    if drained.1 = [] then (st1, none)
    else playHand shuffle rg sg drained.1 st1
  else (st, none)

/-! ### Run state machine -/

/-- `enum RunState` from `run.rs`. -/
inductive RunState where
  | Running
  | Finished (won : Bool)
deriving DecidableEq, Repr

/-- The state `Game::handle_run_events` from `game.rs` reads and writes:
the active round's `hands_count`, `score`, `blind` and `ante`, plus the run's
`run_state`. -/
structure RunSt where
  handsCount : Nat
  score : Nat
  blind : Blind
  ante : Nat
  runState : RunState
deriving DecidableEq, Repr

/-- The `Event::Tick` arm of `Game::handle_run_events` from `game.rs`: if no
hands remain and the score is below the blind's target, set
`Finished(false)`; then, if the score has reached the target, set
`Finished(true)`.  `&&` short-circuits, so the first target computation only
happens at zero hands; either `get_target_score` error propagates out via
`?`. -/
def handleRunTick (st : RunSt) : Except Err RunSt := do
  let st1 ←
    if st.handsCount = 0 then do
      let target ← getTargetScore st.blind st.ante
      if st.score < target then
        pure { st with runState := .Finished false }
      else
        pure st
    else
      pure st
  let target ← getTargetScore st1.blind st1.ante
  if st1.score ≥ target then
    pure { st1 with runState := .Finished true }
  else
    pure st1

/-! ### Card-list selection state -/

/-- The selection-relevant fields of `CardListWidgetState` from
`card_list.rs` (`cards` is only read for cursor wrap-around, which `select`
and `deselect` never do). -/
structure SelSt where
  pos : Option Nat
  selected : Finset Nat
  selectionLimit : Option Nat
deriving DecidableEq

/-- `SelectableList::select` for `CardListWidgetState` from `card_list.rs`:
refuse when `selection_limit.is_some_and(|limit| limit < selected.len())`,
otherwise insert the cursor position (the `Bool` is `HashSet::insert`'s
"newly inserted" result); no cursor means no-op. -/
def selectOp (st : SelSt) : SelSt × Bool :=
  if (match st.selectionLimit with
      | some limit => decide (limit < st.selected.card)
      | none => false) then
    (st, false)
  else
    match st.pos with
    | some p => ({ st with selected := insert p st.selected },
                 decide (p ∉ st.selected))
    | none => (st, false)

/-- `SelectableList::deselect` from `card_list.rs`. -/
def deselectOp (st : SelSt) : SelSt × Bool :=
  match st.pos with
  | some p => ({ st with selected := st.selected.erase p },
               decide (p ∈ st.selected))
  | none => (st, false)

/-! ### Card display and parsing -/

/-- The strum-derived `Display` for `Suit`: with no `to_string` property the
derive picks the longest `serialize` value, here the unicode glyph. -/
def suitDisplay : Suit → String
  | .Club => "♣"
  | .Diamond => "♦"
  | .Heart => "♥"
  | .Spade => "♠"

/-- The strum-derived `Display` for `Rank`: the longest `serialize` value,
with equally long candidates resolved to the last listed one
(`max_by_key` keeps the last maximum), so `Ace` prints as "1", `Jack` as
"11", `Queen` as "12" and `King` as "13".  (Every candidate ends in a rank
character, never a suit character, so the round-trip analysis below does not
depend on this tie-breaking.) -/
def rankDisplay : Rank → String
  | .Ace => "1"
  | .Two => "2"
  | .Three => "3"
  | .Four => "4"
  | .Five => "5"
  | .Six => "6"
  | .Seven => "7"
  | .Eight => "8"
  | .Nine => "9"
  | .Ten => "10"
  | .Jack => "11"
  | .Queen => "12"
  | .King => "13"

/-- `impl Display for Card` from `card.rs`:
`write!(f, "{}{}", self.suit, self.rank)` - the suit comes first. -/
def cardToString (c : Card) : String :=
  suitDisplay c.suit ++ rankDisplay c.rank

/-- `impl FromStr for Suit` (strum `EnumString`): accepts each `serialize`
value. -/
def suitFromStr (s : String) : Except Err Suit :=
  if s = "♣" ∨ s = "C" then .ok .Club
  else if s = "♦" ∨ s = "D" then .ok .Diamond
  else if s = "♥" ∨ s = "H" then .ok .Heart
  else if s = "♠" ∨ s = "S" then .ok .Spade
  else .error (.MalformedCard s)

/-- `impl FromStr for Rank` (strum `EnumString`): accepts each `serialize`
value. -/
def rankFromStr (s : String) : Except Err Rank :=
  if s = "A" ∨ s = "1" then .ok .Ace
  else if s = "2" then .ok .Two
  else if s = "3" then .ok .Three
  else if s = "4" then .ok .Four
  else if s = "5" then .ok .Five
  else if s = "6" then .ok .Six
  else if s = "7" then .ok .Seven
  else if s = "8" then .ok .Eight
  else if s = "9" then .ok .Nine
  else if s = "10" then .ok .Ten
  else if s = "J" ∨ s = "11" then .ok .Jack
  else if s = "Q" ∨ s = "12" then .ok .Queen
  else if s = "K" ∨ s = "13" then .ok .King
  else .error (.MalformedCard s)

/-- `impl FromStr for Card` from `card.rs`: split into grapheme clusters,
pop the trailing one as the suit, parse the rest as the rank.  Every string
this development feeds in consists of single-scalar graphemes, so clusters
coincide with `Char`s. -/
def cardFromStr (s : String) : Except Err Card :=
  match s.data.getLast? with
  | none => .error (.MalformedCard s)
  | some suitChar => do
    let rank ← rankFromStr (String.mk s.data.dropLast)
    let suit ← suitFromStr (String.mk [suitChar])
    pure { rank := rank, suit := suit }

/-! ### Specification-side predicates (for the refinement claims) -/

/-- Five consecutive values, as a multiset. -/
def IsRun (vs : List Nat) : Prop :=
  ∃ m ∈ vs, vs.Perm [m, m + 1, m + 2, m + 3, m + 4]

instance (vs : List Nat) : Decidable (IsRun vs) :=
  inferInstanceAs (Decidable (∃ m ∈ vs, vs.Perm [m, m + 1, m + 2, m + 3, m + 4]))

/-- Modelled from the spec's straight rule: "A straight exists if 5 ranks
form a contiguous run under one of two interpretations: (a) Ace counted only
as rank-above-King, or (b) Ace counted only as rank-below-Two" - five
distinct ranks whose values form a run either with Ace high (`hiVal`) or with
Ace low (`loVal`). -/
def straightSpec (ranks : List Rank) : Prop :=
  ranks.Nodup ∧ (IsRun (ranks.map hiVal) ∨ IsRun (ranks.map loVal))

instance (ranks : List Rank) : Decidable (straightSpec ranks) :=
  inferInstanceAs (Decidable (ranks.Nodup
    ∧ (IsRun (ranks.map hiVal) ∨ IsRun (ranks.map loVal))))

/-- The straight-family classifications of spec claim C1. -/
def isStraightFamily (o : Option ScoringHand) : Prop :=
  o = some .Straight ∨ o = some .StraightFlush ∨ o = some .RoyalFlush

instance (o : Option ScoringHand) : Decidable (isStraightFamily o) :=
  inferInstanceAs (Decidable (o = some .Straight ∨ o = some .StraightFlush
    ∨ o = some .RoyalFlush))

instance : IsAntisymm Nat (· ≥ ·) := ⟨fun _ _ h1 h2 => Nat.le_antisymm h2 h1⟩

/-! ## Lemmas -/

lemma mapM_option_map {α β : Type} (g : α → β) (l : List α) :
    l.mapM (fun x => some (g x)) = some (l.map g) := by
  rw [← List.mapM'_eq_mapM]
  induction l with
  | nil => rfl
  | cons a tl ih => simp [List.mapM', ih]

lemma comparator_eq (rw : List Rank) :
    (rw.mapM (fun r =>
      rw.head?.map (fun f => (rankOrdinal f : Int) - (rankOrdinal r : Int))))
      = some (rw.map (fun r =>
          (rankOrdinal (rw.head?.getD Rank.Ace) : Int) - (rankOrdinal r : Int))) := by
  cases rw with
  | nil => rfl
  | cons a tl =>
    simp only [List.head?, Option.map_some', Option.getD_some]
    exact mapM_option_map _ _

lemma tsr_eval (ranks : List Rank) :
    testStraightRanks ranks =
      (let rw := ranks.filter (fun r => !(r == Rank.Ace))
       let comp := rw.map (fun r =>
         (rankOrdinal (rw.head?.getD Rank.Ace) : Int) - (rankOrdinal r : Int))
       if comp.length < 4 then none
       else if comp = [0, 1, 2, 3, 4] then some ⟨none, rw⟩
       else if (ranks.any (fun r => r == Rank.Ace)) ∧ comp = [0, 1, 2, 3]
           ∧ ranks.any (fun r => r == Rank.Two) then
         some ⟨some false, rw ++ [Rank.Ace]⟩
       else if (ranks.any (fun r => r == Rank.Ace)) ∧ comp = [0, 1, 2, 3]
           ∧ ranks.any (fun r => r == Rank.King) then
         some ⟨some true, Rank.Ace :: rw⟩
       else none) := by
  unfold testStraightRanks
  simp only [comparator_eq, Option.some_bind]



lemma perm_asc_desc (m : Nat) :
    ([m, m + 1, m + 2, m + 3, m + 4] : List Nat).Perm [m + 4, m + 3, m + 2, m + 1, m] := by
  have h : ([m + 4, m + 3, m + 2, m + 1, m] : List Nat)
      = [m, m + 1, m + 2, m + 3, m + 4].reverse := rfl
  rw [h]
  exact (List.reverse_perm _).symm

lemma sorted_desc_run (m : Nat) :
    ([m + 4, m + 3, m + 2, m + 1, m] : List Nat).Sorted (· ≥ ·) := by
  refine List.sorted_cons.mpr ⟨?_, ?_⟩ <;> simp [List.sorted_cons, List.mem_cons]

lemma eq_desc_of_perm_sorted {l : List Nat} {m : Nat}
    (hp : l.Perm [m, m + 1, m + 2, m + 3, m + 4]) (hs : l.Sorted (· ≥ ·)) :
    l = [m + 4, m + 3, m + 2, m + 1, m] :=
  List.eq_of_perm_of_sorted (hp.trans (perm_asc_desc m)) hs (sorted_desc_run m)

lemma perm_asc_desc4 (m : Nat) :
    ([m, m + 1, m + 2, m + 3] : List Nat).Perm [m + 3, m + 2, m + 1, m] := by
  have h : ([m + 3, m + 2, m + 1, m] : List Nat) = [m, m + 1, m + 2, m + 3].reverse := rfl
  rw [h]
  exact (List.reverse_perm _).symm

lemma sorted_desc_run4 (m : Nat) :
    ([m + 3, m + 2, m + 1, m] : List Nat).Sorted (· ≥ ·) := by
  refine List.sorted_cons.mpr ⟨?_, ?_⟩ <;> simp [List.sorted_cons, List.mem_cons]

lemma eq_desc_of_perm_sorted4 {l : List Nat} {m : Nat}
    (hp : l.Perm [m, m + 1, m + 2, m + 3]) (hs : l.Sorted (· ≥ ·)) :
    l = [m + 3, m + 2, m + 1, m] :=
  List.eq_of_perm_of_sorted (hp.trans (perm_asc_desc4 m)) hs (sorted_desc_run4 m)

lemma rankOrdinal_ge2 : ∀ r : Rank, r ≠ Rank.Ace → 2 ≤ rankOrdinal r := by decide

lemma rankOrdinal_le13 : ∀ r : Rank, rankOrdinal r ≤ 13 := by decide

lemma hiVal_le13 : ∀ r : Rank, r ≠ Rank.Ace → hiVal r ≤ 13 := by decide

lemma hiVal_ace : hiVal Rank.Ace = 14 := rfl

lemma hiVal_ne_ace (r : Rank) (h : r ≠ Rank.Ace) : hiVal r = rankOrdinal r := by
  simp [hiVal, h]

lemma rank_ne_of_ord_ne {a b : Rank} (h : rankOrdinal a ≠ rankOrdinal b) : a ≠ b :=
  fun e => h (e ▸ rfl)

lemma ord_eq_two : ∀ r : Rank, rankOrdinal r = 2 ↔ r = Rank.Two := by decide

lemma ord_eq_13 : ∀ r : Rank, rankOrdinal r = 13 ↔ r = Rank.King := by decide

lemma tsr_isSome_iff (r1 r2 r3 r4 r5 : Rank)
    (s12 : hiVal r2 ≤ hiVal r1) (s23 : hiVal r3 ≤ hiVal r2)
    (s34 : hiVal r4 ≤ hiVal r3) (s45 : hiVal r5 ≤ hiVal r4) :
    (testStraightRanks [r1, r2, r3, r4, r5]).isSome ↔
      straightSpec [r1, r2, r3, r4, r5] := by
  by_cases h1 : r1 = Rank.Ace
  · subst h1
    by_cases h2 : r2 = Rank.Ace
    · -- two Aces in front: the filtered list is too short, and the hand has
      -- duplicate ranks
      subst h2
      rw [tsr_eval]
      have hshort : (([Rank.Ace, Rank.Ace, r3, r4, r5].filter
          (fun r => !(r == Rank.Ace)))).length ≤ 3 := by
        have hf : [Rank.Ace, Rank.Ace, r3, r4, r5].filter (fun r => !(r == Rank.Ace))
            = [r3, r4, r5].filter (fun r => !(r == Rank.Ace)) := by
          simp [List.filter]
        rw [hf]
        exact le_trans (List.length_filter_le _ _) (by simp)
      simp only [List.length_map]
      rw [if_pos (by omega)]
      simp only [Option.isSome_none, Bool.false_eq_true, false_iff]
      rintro ⟨hnd, -⟩
      simp [List.nodup_cons] at hnd
    · -- exactly one Ace, necessarily in front
      have h3 : r3 ≠ Rank.Ace := by
        intro e; rw [e, hiVal_ace] at s23; have := hiVal_le13 r2 h2; omega
      have h4 : r4 ≠ Rank.Ace := by
        intro e; rw [e, hiVal_ace] at s34; have := hiVal_le13 r3 h3; omega
      have h5 : r5 ≠ Rank.Ace := by
        intro e; rw [e, hiVal_ace] at s45; have := hiVal_le13 r4 h4; omega
      have e2 : (r2 == Rank.Ace) = false := beq_eq_false_iff_ne.mpr h2
      have e3 : (r3 == Rank.Ace) = false := beq_eq_false_iff_ne.mpr h3
      have e4 : (r4 == Rank.Ace) = false := beq_eq_false_iff_ne.mpr h4
      have e5 : (r5 == Rank.Ace) = false := beq_eq_false_iff_ne.mpr h5
      have b2 := rankOrdinal_ge2 r2 h2
      have b3 := rankOrdinal_ge2 r3 h3
      have b4 := rankOrdinal_ge2 r4 h4
      have b5 := rankOrdinal_ge2 r5 h5
      have c2 := rankOrdinal_le13 r2
      have c3 := rankOrdinal_le13 r3
      have c4 := rankOrdinal_le13 r4
      have c5 := rankOrdinal_le13 r5
      rw [hiVal_ne_ace r2 h2, hiVal_ne_ace r3 h3] at s23
      rw [hiVal_ne_ace r3 h3, hiVal_ne_ace r4 h4] at s34
      rw [hiVal_ne_ace r4 h4, hiVal_ne_ace r5 h5] at s45
      have hmhi : [Rank.Ace, r2, r3, r4, r5].map hiVal
          = [14, rankOrdinal r2, rankOrdinal r3, rankOrdinal r4, rankOrdinal r5] := by
        simp [hiVal_ne_ace, h2, h3, h4, h5, hiVal_ace]
      have hmlo : [Rank.Ace, r2, r3, r4, r5].map loVal
          = [1, rankOrdinal r2, rankOrdinal r3, rankOrdinal r4, rankOrdinal r5] := by
        simp [loVal, rankOrdinal]
      rw [tsr_eval]
      simp only [List.filter, beq_self_eq_true, Bool.not_true, e2, e3, e4, e5,
        Bool.not_false, List.any_cons, List.any_nil, Bool.or_false, Bool.true_or,
        List.head?, Option.getD_some, List.map, List.length_cons, List.length_nil]
      simp only [straightSpec, IsRun, hmhi, hmlo]
      rw [if_neg (by omega)]
      rw [if_neg (by simp)]
      split_ifs with hA hB
      · -- low-Ace straight accepted by the code
        simp only [Option.isSome_some, true_iff]
        obtain ⟨-, hcomp, htwo⟩ := hA
        simp only [List.cons.injEq, and_true] at hcomp
        simp only [Bool.or_eq_true, beq_iff_eq] at htwo
        have htwo' : rankOrdinal r2 = 2 ∨ rankOrdinal r3 = 2 ∨ rankOrdinal r4 = 2
            ∨ rankOrdinal r5 = 2 := by
          rcases htwo with e | e | e | e | e
          · exact absurd e (by decide)
          · exact Or.inl (by subst e; rfl)
          · exact Or.inr (Or.inl (by subst e; rfl))
          · exact Or.inr (Or.inr (Or.inl (by subst e; rfl)))
          · exact Or.inr (Or.inr (Or.inr (by subst e; rfl)))
        constructor
        · simp only [List.nodup_cons, List.mem_cons, List.mem_singleton,
            List.not_mem_nil, or_false, not_or, List.nodup_nil, and_true]
          refine ⟨⟨fun e => h2 e.symm, fun e => h3 e.symm, fun e => h4 e.symm,
            fun e => h5 e.symm⟩, ?_⟩
          have : ([r2, r3, r4, r5].map rankOrdinal).Nodup := by
            simp only [List.map, List.nodup_cons, List.mem_cons, List.mem_singleton,
              List.not_mem_nil, List.nodup_nil, or_false, not_or, not_false_iff, and_true]
            omega
          have hnd := this.of_map
          simp only [List.nodup_cons, List.mem_cons, List.mem_singleton,
            List.not_mem_nil, or_false, not_or, List.nodup_nil, and_true] at hnd
          exact hnd
        · refine Or.inr ⟨1, by simp, ?_⟩
          have hl : ([1, rankOrdinal r2, rankOrdinal r3, rankOrdinal r4,
              rankOrdinal r5] : List Nat) = [1, 5, 4, 3, 2] := by
            simp only [List.cons.injEq, and_true, true_and]
            omega
          rw [hl]
          exact List.Perm.cons 1 ((perm_asc_desc4 2).symm)
      · -- high-Ace straight accepted by the code
        simp only [Option.isSome_some, true_iff]
        obtain ⟨-, hcomp, hking⟩ := hB
        simp only [List.cons.injEq, and_true] at hcomp
        simp only [Bool.or_eq_true, beq_iff_eq] at hking
        have hking' : rankOrdinal r2 = 13 ∨ rankOrdinal r3 = 13 ∨ rankOrdinal r4 = 13
            ∨ rankOrdinal r5 = 13 := by
          rcases hking with e | e | e | e | e
          · exact absurd e (by decide)
          · exact Or.inl (by subst e; rfl)
          · exact Or.inr (Or.inl (by subst e; rfl))
          · exact Or.inr (Or.inr (Or.inl (by subst e; rfl)))
          · exact Or.inr (Or.inr (Or.inr (by subst e; rfl)))
        constructor
        · simp only [List.nodup_cons, List.mem_cons, List.mem_singleton,
            List.not_mem_nil, or_false, not_or, List.nodup_nil, and_true]
          refine ⟨⟨fun e => h2 e.symm, fun e => h3 e.symm, fun e => h4 e.symm,
            fun e => h5 e.symm⟩, ?_⟩
          have : ([r2, r3, r4, r5].map rankOrdinal).Nodup := by
            simp only [List.map, List.nodup_cons, List.mem_cons, List.mem_singleton,
              List.not_mem_nil, List.nodup_nil, or_false, not_or, not_false_iff, and_true]
            omega
          have hnd := this.of_map
          simp only [List.nodup_cons, List.mem_cons, List.mem_singleton,
            List.not_mem_nil, or_false, not_or, List.nodup_nil, and_true] at hnd
          exact hnd
        · refine Or.inl ?_
          have hl : ([14, rankOrdinal r2, rankOrdinal r3, rankOrdinal r4,
              rankOrdinal r5] : List Nat) = [14, 13, 12, 11, 10] := by
            simp only [List.cons.injEq, and_true, true_and]
            omega
          rw [hl]
          exact ⟨10, by simp, (perm_asc_desc 10).symm⟩
      · -- the code rejects: neither spec interpretation can hold
        simp only [Option.isSome_none, Bool.false_eq_true, false_iff, not_and]
        rintro hnd (⟨m, hm, hperm⟩ | ⟨m, hm, hperm⟩)
        · -- a high-Ace run would force K,Q,J,10 and the high branch
          have hs : ([14, rankOrdinal r2, rankOrdinal r3, rankOrdinal r4,
              rankOrdinal r5] : List Nat).Sorted (· ≥ ·) := by
            simp only [List.sorted_cons, List.mem_cons, List.mem_singleton,
              List.not_mem_nil, List.sorted_nil, forall_eq_or_imp, forall_eq,
              and_true, false_implies, implies_true]
            omega
          have heq := eq_desc_of_perm_sorted hperm hs
          simp only [List.cons.injEq, and_true] at heq
          apply hB
          refine ⟨trivial, ?_, ?_⟩
          · simp only [List.cons.injEq, and_true]
            omega
          · have hr2 : r2 = Rank.King := (ord_eq_13 r2).mp (by omega)
            rw [hr2]
            simp
        · -- a low-Ace run would force 5,4,3,2 and the low branch
          have h1mem : (1 : Nat) ∈ [m, m + 1, m + 2, m + 3, m + 4] :=
            hperm.mem_iff.mp (by simp)
          simp only [List.mem_cons, List.mem_singleton, List.not_mem_nil,
            or_false] at h1mem
          have hm01 : m = 0 ∨ m = 1 := by omega
          rcases hm01 with hm0 | hm1
          · subst hm0
            have h0 : (0 : Nat) ∈ ([1, rankOrdinal r2, rankOrdinal r3, rankOrdinal r4,
                rankOrdinal r5] : List Nat) := hperm.mem_iff.mpr (by simp)
            simp only [List.mem_cons, List.mem_singleton, List.not_mem_nil,
              or_false] at h0
            omega
          · subst hm1
            have htail : ([rankOrdinal r2, rankOrdinal r3, rankOrdinal r4,
                rankOrdinal r5] : List Nat).Perm [2, 2 + 1, 2 + 2, 2 + 3] :=
              hperm.cons_inv
            have hs4 : ([rankOrdinal r2, rankOrdinal r3, rankOrdinal r4,
                rankOrdinal r5] : List Nat).Sorted (· ≥ ·) := by
              simp only [List.sorted_cons, List.mem_cons, List.mem_singleton,
                List.not_mem_nil, List.sorted_nil, forall_eq_or_imp, forall_eq,
                and_true, false_implies, implies_true]
              omega
            have heq := eq_desc_of_perm_sorted4 htail hs4
            simp only [List.cons.injEq, and_true] at heq
            apply hA
            refine ⟨trivial, ?_, ?_⟩
            · simp only [List.cons.injEq, and_true]
              omega
            · have hr5 : r5 = Rank.Two := (ord_eq_two r5).mp (by omega)
              rw [hr5]
              simp
  · -- no Ace anywhere: r1 ≠ Ace and the rest are below it
    have h2 : r2 ≠ Rank.Ace := by
      intro e; rw [e, hiVal_ace] at s12; have := hiVal_le13 r1 h1; omega
    have h3 : r3 ≠ Rank.Ace := by
      intro e; rw [e, hiVal_ace] at s23; have := hiVal_le13 r2 h2; omega
    have h4 : r4 ≠ Rank.Ace := by
      intro e; rw [e, hiVal_ace] at s34; have := hiVal_le13 r3 h3; omega
    have h5 : r5 ≠ Rank.Ace := by
      intro e; rw [e, hiVal_ace] at s45; have := hiVal_le13 r4 h4; omega
    have e1 : (r1 == Rank.Ace) = false := beq_eq_false_iff_ne.mpr h1
    have e2 : (r2 == Rank.Ace) = false := beq_eq_false_iff_ne.mpr h2
    have e3 : (r3 == Rank.Ace) = false := beq_eq_false_iff_ne.mpr h3
    have e4 : (r4 == Rank.Ace) = false := beq_eq_false_iff_ne.mpr h4
    have e5 : (r5 == Rank.Ace) = false := beq_eq_false_iff_ne.mpr h5
    rw [tsr_eval]
    simp only [List.filter, e1, e2, e3, e4, e5, Bool.not_false, List.any_cons,
      List.any_nil, Bool.or_false, List.head?, Option.getD_some, List.map,
      List.length_cons, List.length_nil]
    rw [if_neg (by omega)]
    simp only [Bool.false_eq_true, false_and, if_false]
    have b1 := rankOrdinal_ge2 r1 h1
    have b2 := rankOrdinal_ge2 r2 h2
    have b3 := rankOrdinal_ge2 r3 h3
    have b4 := rankOrdinal_ge2 r4 h4
    have b5 := rankOrdinal_ge2 r5 h5
    have c1 := rankOrdinal_le13 r1
    rw [hiVal_ne_ace r1 h1, hiVal_ne_ace r2 h2] at s12
    rw [hiVal_ne_ace r2 h2, hiVal_ne_ace r3 h3] at s23
    rw [hiVal_ne_ace r3 h3, hiVal_ne_ace r4 h4] at s34
    rw [hiVal_ne_ace r4 h4, hiVal_ne_ace r5 h5] at s45
    have hmor : [r1, r2, r3, r4, r5].map hiVal
        = [rankOrdinal r1, rankOrdinal r2, rankOrdinal r3, rankOrdinal r4, rankOrdinal r5] := by
      simp [hiVal_ne_ace, h1, h2, h3, h4, h5]
    have hmlo : [r1, r2, r3, r4, r5].map loVal
        = [rankOrdinal r1, rankOrdinal r2, rankOrdinal r3, rankOrdinal r4, rankOrdinal r5] := by
      simp [loVal]
    simp only [straightSpec, IsRun, hmor, hmlo, or_self]
    split_ifs with hc
    · simp only [Option.isSome_some, true_iff]
      simp only [List.cons.injEq, and_true] at hc
      constructor
      · refine List.Nodup.of_map rankOrdinal ?_
        simp only [List.map, List.nodup_cons, List.mem_cons, List.mem_singleton,
          List.not_mem_nil, List.nodup_nil, or_false, not_or, not_false_iff, and_true]
        omega
      · refine ⟨rankOrdinal r5, by simp, ?_⟩
        have he : [rankOrdinal r1, rankOrdinal r2, rankOrdinal r3, rankOrdinal r4, rankOrdinal r5]
            = [rankOrdinal r5 + 4, rankOrdinal r5 + 3, rankOrdinal r5 + 2,
               rankOrdinal r5 + 1, rankOrdinal r5] := by
          simp only [List.cons.injEq, and_true]
          omega
        rw [he]
        exact (perm_asc_desc (rankOrdinal r5)).symm
    · simp only [Option.isSome_none, Bool.false_eq_true, false_iff, not_and]
      rintro hnd ⟨m, hm, hperm⟩
      have hs : ([rankOrdinal r1, rankOrdinal r2, rankOrdinal r3, rankOrdinal r4,
          rankOrdinal r5] : List Nat).Sorted (· ≥ ·) := by
        simp only [List.sorted_cons, List.mem_cons, List.mem_singleton, List.not_mem_nil,
          List.sorted_nil, forall_eq_or_imp, forall_eq, and_true, List.not_mem_nil,
          false_implies, implies_true]
        omega
      have heq := eq_desc_of_perm_sorted hperm hs
      simp only [List.cons.injEq, and_true] at heq
      apply hc
      simp only [List.cons.injEq, and_true]
      omega


lemma tsr_isSome_iff_list (l : List Rank) (h5 : l.length = 5)
    (hch : l.Chain' (fun a b => hiVal b ≤ hiVal a)) :
    (testStraightRanks l).isSome ↔ straightSpec l := by
  rcases l with _ | ⟨r1, _ | ⟨r2, _ | ⟨r3, _ | ⟨r4, _ | ⟨r5, _ | ⟨r6, tl⟩⟩⟩⟩⟩⟩ <;>
    simp only [List.length_cons, List.length_nil] at h5 <;> try omega
  simp only [List.chain'_cons, List.chain'_singleton, and_true] at hch
  obtain ⟨c12, c23, c34, c45⟩ := hch
  exact tsr_isSome_iff r1 r2 r3 r4 r5 c12 c23 c34 c45

lemma sortedByRank_perm (cards : List Card) : (sortedByRank cards).Perm cards :=
  List.perm_insertionSort _ _

lemma sortedByRank_sorted (cards : List Card) :
    (sortedByRank cards).Sorted cardLeByRank :=
  List.sorted_insertionSort _ _

lemma suitOrdinal_lt4 : ∀ s : Suit, suitOrdinal s < 4 := by decide

lemma hiVal_bounds : ∀ r : Rank, 2 ≤ hiVal r ∧ hiVal r ≤ 14 := by decide

lemma cardLe_hiVal {a b : Card} (h : cardLeByRank a b) :
    hiVal b.rank ≤ hiVal a.rank := by
  unfold cardLeByRank rankSortKey at h
  have ha := suitOrdinal_lt4 a.suit
  have hb := suitOrdinal_lt4 b.suit
  have ha2 := hiVal_bounds a.rank
  have hb2 := hiVal_bounds b.rank
  omega

lemma sortedByRank_ranks_chain (cards : List Card) :
    ((sortedByRank cards).map (fun c => c.rank)).Chain'
      (fun a b => hiVal b ≤ hiVal a) := by
  have hp : (sortedByRank cards).Pairwise cardLeByRank := sortedByRank_sorted cards
  have hp2 : (sortedByRank cards).Pairwise
      (fun a b => hiVal b.rank ≤ hiVal a.rank) :=
    hp.imp cardLe_hiVal
  have hp3 : ((sortedByRank cards).map (fun c => c.rank)).Pairwise
      (fun a b => hiVal b ≤ hiVal a) := List.pairwise_map.mpr hp2
  exact hp3.chain'

lemma isRun_perm {vs ws : List Nat} (h : vs.Perm ws) : IsRun vs ↔ IsRun ws := by
  unfold IsRun
  constructor <;> rintro ⟨m, hm, hp⟩
  · exact ⟨m, h.mem_iff.mp hm, h.symm.trans hp⟩
  · exact ⟨m, h.mem_iff.mpr hm, h.trans hp⟩

lemma straightSpec_perm {l l' : List Rank} (h : l.Perm l') :
    straightSpec l ↔ straightSpec l' := by
  unfold straightSpec
  rw [h.nodup_iff, isRun_perm (h.map hiVal), isRun_perm (h.map loVal)]

lemma countRank_eq_count (cards : List Card) (r : Rank) :
    countRank cards r = (cards.map (fun c => c.rank)).count r := by
  unfold countRank
  rw [List.count_eq_countP, List.countP_map, ← List.countP_eq_length_filter]
  rfl

lemma count_le_one_of_nodup {cards : List Card}
    (hnd : (cards.map (fun c => c.rank)).Nodup) (r : Rank) :
    countRank cards r ≤ 1 := by
  rw [countRank_eq_count]
  exact List.nodup_iff_count_le_one.mp hnd r

lemma grouping_head_count_one {cards : List Card} {rg : List (Rank × Nat)}
    {r0 : Rank × Nat} {rtail : List (Rank × Nat)}
    (hrg : IsRankGrouping cards rg) (he : rg = r0 :: rtail)
    (hnd : (cards.map (fun c => c.rank)).Nodup) : r0.2 = 1 := by
  obtain ⟨-, hcounts, -, -⟩ := hrg
  have hmem : r0 ∈ rg := by rw [he]; exact List.mem_cons_self _ _
  obtain ⟨hc, hpos⟩ := hcounts r0 hmem
  have := count_le_one_of_nodup hnd r0.1
  omega

lemma rank_grouping_ne_nil {cards : List Card} {rg : List (Rank × Nat)}
    (hrg : IsRankGrouping cards rg) (hc : cards ≠ []) : rg ≠ [] := by
  obtain ⟨c, hcm⟩ := List.exists_mem_of_ne_nil cards hc
  have hpos : 0 < countRank cards c.rank := by
    unfold countRank
    rw [← List.countP_eq_length_filter]
    exact List.countP_pos_iff.mpr ⟨c, hcm, by simp⟩
  have := hrg.2.2.1 c.rank hpos
  intro he
  rw [he] at this
  simp at this

lemma suit_grouping_ne_nil {cards : List Card} {sg : List (Suit × Nat)}
    (hsg : IsSuitGrouping cards sg) (hc : cards ≠ []) : sg ≠ [] := by
  obtain ⟨c, hcm⟩ := List.exists_mem_of_ne_nil cards hc
  have hpos : 0 < countSuit cards c.suit := by
    unfold countSuit
    rw [← List.countP_eq_length_filter]
    exact List.countP_pos_iff.mpr ⟨c, hcm, by simp⟩
  have := hsg.2.2.1 c.suit hpos
  intro he
  rw [he] at this
  simp at this

lemma family_implies_straight (r0 : Rank × Nat) (r1? : Option (Rank × Nat))
    (suitMax : Nat) (straightRes : Option StraightTestReport) (cards : List Card)
    (h : isStraightFamily (classify r0 r1? suitMax straightRes cards).1) :
    straightRes.isSome := by
  cases hres : straightRes with
  | some res => simp
  | none =>
    exfalso
    subst hres
    unfold classify at h
    simp only [ite_self] at h
    split_ifs at h <;> simp [isStraightFamily] at h

lemma straight_implies_family (r0 : Rank × Nat) (r1? : Option (Rank × Nat))
    (suitMax : Nat) (res : StraightTestReport) (cards : List Card)
    (hr0 : r0.2 = 1) :
    isStraightFamily (classify r0 r1? suitMax (some res) cards).1 := by
  unfold classify
  rw [if_neg (by simp [hr0]), if_neg (by simp [hr0]), if_neg (by simp [hr0])]
  split
  · split_ifs <;> simp [isStraightFamily]
  · rename_i heq
    have hs : suitMax ≠ 5 := by
      intro h
      rw [if_pos h] at heq
      exact Option.noConfusion heq
    rw [if_neg (by simp [hr0]), if_neg (by simp [hr0]), if_neg hs]
    simp [isStraightFamily]

/-! ## Claim theorems -/

/-- C1: For every 5-card input and any rank/suit groupings the
`HashMap`-based `grouped_by_rank`/`grouped_by_suit` may produce,
`Scorer::get_scoring_hand` classifies into the straight family (`Straight`,
`StraightFlush` or `RoyalFlush`) exactly when the five ranks are distinct and
form a contiguous run with Ace read only as high (A,K,Q,J,10) or only as low
(5,4,3,2,A); in particular a hand like [2♦,A♣,3♠,K♥,Q♣] falls through to
`HighCard`. -/
theorem c1_straight_family_iff (cards : List Card) (rg : List (Rank × Nat))
    (sg : List (Suit × Nat)) (h5 : cards.length = 5)
    (hrg : IsRankGrouping cards rg) (hsg : IsSuitGrouping cards sg) :
    isStraightFamily (getScoringHand rg sg cards).1 ↔
      straightSpec (cards.map (fun c => c.rank)) := by
  have hne : cards ≠ [] := by
    intro h
    rw [h] at h5
    simp at h5
  obtain ⟨r0, rtail, hrge⟩ : ∃ r0 rtail, rg = r0 :: rtail := by
    cases rg with
    | nil => exact absurd rfl (rank_grouping_ne_nil hrg hne)
    | cons a b => exact ⟨a, b, rfl⟩
  obtain ⟨s0, stail, hsge⟩ : ∃ s0 stail, sg = s0 :: stail := by
    cases sg with
    | nil => exact absurd rfl (suit_grouping_ne_nil hsg hne)
    | cons a b => exact ⟨a, b, rfl⟩
  subst hrge hsge
  have hg : getScoringHand (r0 :: rtail) (s0 :: stail) cards
      = classify r0 rtail.head? s0.2 (testStraight (sortedByRank cards)) cards := rfl
  rw [hg]
  have hperm : ((sortedByRank cards).map (fun c => c.rank)).Perm
      (cards.map (fun c => c.rank)) := (sortedByRank_perm cards).map _
  have hlen : ((sortedByRank cards).map (fun c => c.rank)).length = 5 := by
    rw [List.length_map, (sortedByRank_perm cards).length_eq, h5]
  have hiff := tsr_isSome_iff_list _ hlen (sortedByRank_ranks_chain cards)
  have hspec : straightSpec ((sortedByRank cards).map (fun c => c.rank))
      ↔ straightSpec (cards.map (fun c => c.rank)) := straightSpec_perm hperm
  have htsr : testStraight (sortedByRank cards)
      = testStraightRanks ((sortedByRank cards).map (fun c => c.rank)) := rfl
  constructor
  · intro h
    have hsome := family_implies_straight _ _ _ _ _ h
    rw [htsr] at hsome
    exact hspec.mp (hiff.mp hsome)
  · intro h
    have hnd : (cards.map (fun c => c.rank)).Nodup := h.1
    have hr0 : r0.2 = 1 := grouping_head_count_one hrg rfl hnd
    have hsome : (testStraightRanks
        ((sortedByRank cards).map (fun c => c.rank))).isSome :=
      hiff.mpr (hspec.mpr h)
    obtain ⟨res, hres⟩ := Option.isSome_iff_exists.mp hsome
    rw [htsr, hres]
    exact straight_implies_family r0 rtail.head? s0.2 res cards hr0

/-- Witness for C1 at the spec's own boundary example [2♦,A♣,3♠,K♥,Q♣]
(an isolated Ace next to a partial run must not count as a straight). -/
theorem c1_straight_family_iff_witness :
    ([⟨.Two, .Diamond⟩, ⟨.Ace, .Club⟩, ⟨.Three, .Spade⟩, ⟨.King, .Heart⟩,
        ⟨.Queen, .Club⟩] : List Card).length = 5 ∧
    IsRankGrouping [⟨.Two, .Diamond⟩, ⟨.Ace, .Club⟩, ⟨.Three, .Spade⟩,
        ⟨.King, .Heart⟩, ⟨.Queen, .Club⟩]
      [(Rank.Ace, 1), (Rank.King, 1), (Rank.Queen, 1), (Rank.Three, 1),
        (Rank.Two, 1)] ∧
    IsSuitGrouping [⟨.Two, .Diamond⟩, ⟨.Ace, .Club⟩, ⟨.Three, .Spade⟩,
        ⟨.King, .Heart⟩, ⟨.Queen, .Club⟩]
      [(Suit.Club, 2), (Suit.Diamond, 1), (Suit.Spade, 1), (Suit.Heart, 1)] ∧
    (isStraightFamily (getScoringHand
        [(Rank.Ace, 1), (Rank.King, 1), (Rank.Queen, 1), (Rank.Three, 1),
          (Rank.Two, 1)]
        [(Suit.Club, 2), (Suit.Diamond, 1), (Suit.Spade, 1), (Suit.Heart, 1)]
        [⟨.Two, .Diamond⟩, ⟨.Ace, .Club⟩, ⟨.Three, .Spade⟩, ⟨.King, .Heart⟩,
          ⟨.Queen, .Club⟩]).1 ↔
      straightSpec ([⟨.Two, .Diamond⟩, ⟨.Ace, .Club⟩, ⟨.Three, .Spade⟩,
        ⟨.King, .Heart⟩, ⟨.Queen, .Club⟩].map (fun c : Card => c.rank))) :=
  ⟨by decide, by decide, by decide,
    c1_straight_family_iff _ _ _ (by decide) (by decide) (by decide)⟩

lemma classify_isSome (r0 : Rank × Nat) (r1? : Option (Rank × Nat))
    (suitMax : Nat) (straightRes : Option StraightTestReport) (cards : List Card) :
    (classify r0 r1? suitMax straightRes cards).1.isSome := by
  unfold classify
  repeat' split
  all_goals rfl

lemma scoreChips_aux (ranks : List Rank) :
    ∀ acc v : Nat,
      ranks.foldlM (fun acc r => checkedAdd (rankScore r) acc) acc = some v →
      v = acc + (ranks.map rankScore).sum := by
  induction ranks with
  | nil =>
    intro acc v h
    simp only [List.foldlM_nil] at h
    cases h
    simp
  | cons r tl ih =>
    intro acc v h
    simp only [List.foldlM_cons] at h
    unfold checkedAdd at h
    split_ifs at h with hle
    · simp only [Option.bind_eq_bind, Option.some_bind] at h
      have := ih (rankScore r + acc) v h
      simp only [List.map_cons, List.sum_cons]
      omega
    · simp at h

lemma scoreChips_sum {ranks : List Rank} {v : Nat}
    (h : scoreChipsFromRanks ranks = some v) : v = (ranks.map rankScore).sum := by
  have := scoreChips_aux ranks 0 v h
  omega

/-- C2: whenever `Scorer::score_cards` succeeds, the value is
`(base_chips + Σ rank.score()) * multiplier` over the scored ranks (all
arithmetic is overflow-checked, surfacing errors instead of wrapping); for
non-empty input with valid groupings the classification is always `some`; and
for [10♣,10♣,10♣,10♣,10♣] the classification is `FlushFive` and the score is
`(160 + 5*10) * 16 = 3360`. -/
theorem c2_score_formula :
    (∀ (cards : List Card) (rg : List (Rank × Nat)) (sg : List (Suit × Nat))
        (v : Nat),
      scoreCards cards rg sg = Except.ok v →
      ∃ sh, (getScoringHand rg sg cards).1 = some sh ∧
        v = ((chipsAndMult sh).1 +
            ((getScoringHand rg sg cards).2.map rankScore).sum) *
          (chipsAndMult sh).2) ∧
    (∀ (cards : List Card) (rg : List (Rank × Nat)) (sg : List (Suit × Nat)),
      cards ≠ [] → IsRankGrouping cards rg → IsSuitGrouping cards sg →
      (getScoringHand rg sg cards).1.isSome) ∧
    scoreCards
        [⟨.Ten, .Club⟩, ⟨.Ten, .Club⟩, ⟨.Ten, .Club⟩, ⟨.Ten, .Club⟩,
          ⟨.Ten, .Club⟩]
        [(Rank.Ten, 5)] [(Suit.Club, 5)] = Except.ok 3360 ∧
    (getScoringHand [(Rank.Ten, 5)] [(Suit.Club, 5)]
        [⟨.Ten, .Club⟩, ⟨.Ten, .Club⟩, ⟨.Ten, .Club⟩, ⟨.Ten, .Club⟩,
          ⟨.Ten, .Club⟩]).1 = some .FlushFive := by
  refine ⟨?_, ?_, by decide, by decide⟩
  · intro cards rg sg v h
    unfold scoreCards at h
    cases hg : getScoringHand rg sg cards with
    | mk sh? ranks =>
      rw [hg] at h
      cases sh? with
      | none => simp at h
      | some sh =>
        dsimp only at h ⊢
        refine ⟨sh, rfl, ?_⟩
        cases hsc : scoreChipsFromRanks ranks with
        | none => rw [hsc] at h; simp at h
        | some inc =>
          rw [hsc] at h
          dsimp only at h
          cases hca : checkedAdd (chipsAndMult sh).1 inc with
          | none => rw [hca] at h; simp at h
          | some s =>
            rw [hca] at h
            dsimp only at h
            cases hcm : checkedMul s (chipsAndMult sh).2 with
            | none => rw [hcm] at h; simp at h
            | some w =>
              rw [hcm] at h
              dsimp only at h
              cases h
              have hsum := scoreChips_sum hsc
              unfold checkedAdd at hca
              unfold checkedMul at hcm
              split_ifs at hca
              split_ifs at hcm
              cases hca
              cases hcm
              rw [← hsum]
  · intro cards rg sg hne hrg hsg
    obtain ⟨r0, rtail, hrge⟩ : ∃ r0 rtail, rg = r0 :: rtail := by
      cases rg with
      | nil => exact absurd rfl (rank_grouping_ne_nil hrg hne)
      | cons a b => exact ⟨a, b, rfl⟩
    obtain ⟨s0, stail, hsge⟩ : ∃ s0 stail, sg = s0 :: stail := by
      cases sg with
      | nil => exact absurd rfl (suit_grouping_ne_nil hsg hne)
      | cons a b => exact ⟨a, b, rfl⟩
    subst hrge hsge
    exact classify_isSome r0 rtail.head? s0.2 (testStraight (sortedByRank cards))
      cards

/-- Witness for C2: the score formula instantiated at the FlushFive example
hand. -/
theorem c2_score_formula_witness :
    ∃ sh, (getScoringHand [(Rank.Ten, 5)] [(Suit.Club, 5)]
        [⟨.Ten, .Club⟩, ⟨.Ten, .Club⟩, ⟨.Ten, .Club⟩, ⟨.Ten, .Club⟩,
          ⟨.Ten, .Club⟩]).1 = some sh ∧
      3360 = ((chipsAndMult sh).1 +
          ((getScoringHand [(Rank.Ten, 5)] [(Suit.Club, 5)]
            [⟨.Ten, .Club⟩, ⟨.Ten, .Club⟩, ⟨.Ten, .Club⟩, ⟨.Ten, .Club⟩,
              ⟨.Ten, .Club⟩]).2.map rankScore).sum) *
        (chipsAndMult sh).2 :=
  c2_score_formula.1 _ _ _ 3360 (by decide)

/-- C3: `Blind::get_target_score` evaluated at the claim's boundary.  The
guard `ante >= BLIND_BASE_AMOUNTS.len()` rejects ante 8 - the final playable
ante - with `AnteExceeded`, although `BLIND_BASE_AMOUNTS[7]` exists; the
formula `25 * score_multiplier * boss_multiplier * BASE_AMOUNTS[ante-1]`
(boss multiplier 4 for Wall, 1 for Needle, 2 otherwise) holds for antes up to
7, e.g. `target_score(Small, 1) = 25 * 2 * 2 * 3 = 300`. -/
theorem c3_target_score_eval :
    getTargetScore .Small 8 = .error (.AnteExceeded 8) ∧
    getTargetScore .Small 9 = .error (.AnteExceeded 9) ∧
    getTargetScore .Small 1 = .ok (25 * 2 * 2 * 3) ∧
    getTargetScore .Small 1 = .ok 300 ∧
    getTargetScore .Big 7 = .ok (25 * 3 * 2 * 350) ∧
    getTargetScore (.Boss .Wall) 7 = .ok (25 * 4 * 4 * 350) ∧
    getTargetScore (.Boss .Needle) 7 = .ok (25 * 4 * 1 * 350) ∧
    getTargetScore (.Boss .Hook) 7 = .ok (25 * 4 * 2 * 350) := by
  refine ⟨?_, ?_, ?_, ?_, ?_, ?_, ?_, ?_⟩ <;> decide

/-- C4: the Tick arm of `Game::handle_run_events` sets `Finished(true)` as
soon as the score reaches the blind's target at ANY ante - here a win at
ante 1, where the claim requires the final ante 8 - while a loss (no hands
left, score short of target) indeed yields `Finished(false)`. -/
theorem c4_finished_true_at_ante_one :
    handleRunTick { handsCount := 3, score := 300, blind := .Small, ante := 1,
                    runState := .Running }
      = .ok { handsCount := 3, score := 300, blind := .Small, ante := 1,
              runState := .Finished true } ∧
    handleRunTick { handsCount := 0, score := 299, blind := .Small, ante := 1,
                    runState := .Running }
      = .ok { handsCount := 0, score := 299, blind := .Small, ante := 1,
              runState := .Finished false } ∧
    (1 : Nat) ≠ 8 := by
  refine ⟨by decide, by decide, by decide⟩

/-- C9: the hand-rolled `Ord for Rank` compares `Ace` with `Ace` as
`Greater`, not `Equal` - inconsistent with `Rank`'s equality and the `Ord`
contract at exactly that pair - while Ace does sort strictly above the other
ranks and non-Ace reflexive comparisons are `Equal`. -/
theorem c9_rank_cmp_ace_ace :
    rankCmp Rank.Ace Rank.Ace = Ordering.gt ∧
    rankCmp Rank.Ace Rank.Ace ≠ Ordering.eq ∧
    rankCmp Rank.Ace Rank.King = Ordering.gt ∧
    rankCmp Rank.King Rank.Ace = Ordering.lt ∧
    rankCmp Rank.King Rank.King = Ordering.eq ∧
    rankCmp Rank.Two Rank.Two = Ordering.eq := by decide

/-- C10: `Display for Card` prints the suit before the rank ("♣1" for the
Ace of Clubs, using strum's longest-serialization rule for the rank), but
`Card::from_str` takes the trailing grapheme as the suit, so parsing the
printed form fails (the rank parser receives "♣") - while the rank-first
form "1♣" parses back to the card.  The round-trip fails for every card:
each printed string ends in a rank character, never a suit character. -/
theorem c10_display_parse_mismatch :
    cardToString ⟨Rank.Ace, Suit.Club⟩ = "♣1" ∧
    cardFromStr "♣1" = .error (.MalformedCard "♣") ∧
    cardFromStr (cardToString ⟨Rank.Ace, Suit.Club⟩)
      = .error (.MalformedCard "♣") ∧
    cardFromStr "1♣" = .ok ⟨Rank.Ace, Suit.Club⟩ := by
  refine ⟨rfl, by decide, by decide, by decide⟩

/-- C8: `SelectableList::select` only refuses once `limit < selected.len()`,
so with `selection_limit = Some(1)` and one index already selected it still
inserts a second one: the selection grows to 2 > 1, exceeding the limit. -/
theorem c8_select_exceeds_limit :
    (selectOp { pos := some 1, selected := {0}, selectionLimit := some 1 }
      ).1.selected.card = 2 ∧
    (selectOp { pos := some 1, selected := {0}, selectionLimit := some 1 }
      ).2 = true ∧
    (selectOp { pos := some 1, selected := {0}, selectionLimit := some 1 }
      ).1.selectionLimit = some 1 ∧
    (1 : Nat) < 2 := by decide

/-- C6: `grouped_by_rank` iterates a `HashMap`, whose order the source does
not fix; for the HighCard hand [K♥,Q♣,9♦,7♠,3♣] the two group orders below
are both valid outputs of the grouping (all counts are 1, so the count sort
constrains nothing), yet under one `get_scoring_hand` scores King and under
the other Three: the scored rank is not determined to be the single highest
card, contrary to the scorer's own documentation of `HighCard`. -/
theorem c6_high_card_not_deterministic :
    IsRankGrouping
      [⟨.King, .Heart⟩, ⟨.Queen, .Club⟩, ⟨.Nine, .Diamond⟩, ⟨.Seven, .Spade⟩,
        ⟨.Three, .Club⟩]
      [(Rank.King, 1), (Rank.Queen, 1), (Rank.Nine, 1), (Rank.Seven, 1),
        (Rank.Three, 1)] ∧
    IsRankGrouping
      [⟨.King, .Heart⟩, ⟨.Queen, .Club⟩, ⟨.Nine, .Diamond⟩, ⟨.Seven, .Spade⟩,
        ⟨.Three, .Club⟩]
      [(Rank.Three, 1), (Rank.Seven, 1), (Rank.Nine, 1), (Rank.Queen, 1),
        (Rank.King, 1)] ∧
    IsSuitGrouping
      [⟨.King, .Heart⟩, ⟨.Queen, .Club⟩, ⟨.Nine, .Diamond⟩, ⟨.Seven, .Spade⟩,
        ⟨.Three, .Club⟩]
      [(Suit.Club, 2), (Suit.Heart, 1), (Suit.Diamond, 1), (Suit.Spade, 1)] ∧
    getScoringHand
      [(Rank.King, 1), (Rank.Queen, 1), (Rank.Nine, 1), (Rank.Seven, 1),
        (Rank.Three, 1)]
      [(Suit.Club, 2), (Suit.Heart, 1), (Suit.Diamond, 1), (Suit.Spade, 1)]
      [⟨.King, .Heart⟩, ⟨.Queen, .Club⟩, ⟨.Nine, .Diamond⟩, ⟨.Seven, .Spade⟩,
        ⟨.Three, .Club⟩] = (some .HighCard, [Rank.King]) ∧
    getScoringHand
      [(Rank.Three, 1), (Rank.Seven, 1), (Rank.Nine, 1), (Rank.Queen, 1),
        (Rank.King, 1)]
      [(Suit.Club, 2), (Suit.Heart, 1), (Suit.Diamond, 1), (Suit.Spade, 1)]
      [⟨.King, .Heart⟩, ⟨.Queen, .Club⟩, ⟨.Nine, .Diamond⟩, ⟨.Seven, .Spade⟩,
        ⟨.Three, .Club⟩] = (some .HighCard, [Rank.Three]) := by
  refine ⟨by decide, by decide, by decide, by decide, by decide⟩

/-- C5 (counterexample): `Round::play_hand` itself, called with an empty card
list while hands remain, is NOT a no-op: it decrements `hands_count` from 3
to 2 and then returns the scorer's empty-hand error. -/
theorem c5_play_hand_empty_not_noop :
    (playHand (fun d => d) [] [] []
      { handsCount := 3, discardsCount := 3, score := 0, hand := [],
        history := [], deck := [] }).1.handsCount = 2 ∧
    (playHand (fun d => d) [] [] []
      { handsCount := 3, discardsCount := 3, score := 0, hand := [],
        history := [], deck := [] }).2 = some .EmptyHandScored ∧
    (2 : Nat) ≠ 3 := by decide

/-- C5 (amended): the empty-selection no-op is enforced by the caller - the
Enter arm of `Game::handle_round_events` drains nothing for an empty index
set and returns before invoking `play_hand`, leaving hand, score, hands,
discards, history and deck unchanged. -/
theorem c5_empty_selection_noop (shuffle : List Card → List Card)
    (rg : List (Rank × Nat)) (sg : List (Suit × Nat)) (st : RoundSt) :
    handleRoundPlay shuffle rg sg ∅ st = (st, none) := by
  unfold handleRoundPlay drainFromIndexSet
  by_cases h : st.handsCount = 0
  · rw [if_neg (fun hne => hne h)]
  · rw [if_pos h]
    have hsel : (st.hand.enum.filter
        (fun p => decide (p.1 ∈ (∅ : Finset Nat)))).map Prod.snd = [] := by
      simp
    have hleft : (st.hand.enum.filter
        (fun p => decide (p.1 ∉ (∅ : Finset Nat)))).map Prod.snd = st.hand := by
      simp [List.enum_map_snd]
    dsimp only
    rw [hsel, hleft]
    simp

/-- C7 (counterexample): drawing from an undersized deck fails with the
reused `CoreError::HandsExhaustedError` variant - the error taxonomy in
`error.rs` has no insufficient-cards variant at all. -/
theorem c7_draw_error_variant :
    drawRandom (fun d => d) [] 1 = .error .HandsExhaustedError := by decide

/-- C7 (amended): `draw_random(n)` fails - with `HandsExhaustedError` -
exactly when `n` exceeds the deck size, and the check precedes the shuffle
and drain (the embedding's error branch returns before either); on success
exactly `n` cards are drained from the end of the shuffled deck, and drawn
plus remaining cards form the same multiset as the deck before the call. -/
theorem c7_draw_random_spec (shuffle : List Card → List Card)
    (deck : List Card) (n : Nat) (hsh : (shuffle deck).Perm deck) :
    (n > deck.length → drawRandom shuffle deck n = .error .HandsExhaustedError) ∧
    (n ≤ deck.length → ∃ drawn rest,
      drawRandom shuffle deck n = .ok (drawn, rest) ∧
      drawn.length = n ∧
      rest ++ drawn = shuffle deck ∧
      (drawn ++ rest).Perm deck) := by
  have hlen : (shuffle deck).length = deck.length := hsh.length_eq
  constructor
  · intro h
    unfold drawRandom
    rw [if_pos h]
  · intro h
    unfold drawRandom
    rw [if_neg (by omega)]
    dsimp only
    unfold checkedSub
    rw [if_pos (by omega)]
    refine ⟨_, _, rfl, ?_, ?_, ?_⟩
    · rw [List.length_drop]
      omega
    · exact List.take_append_drop _ _
    · refine List.perm_append_comm.trans ?_
      rw [List.take_append_drop]
      exact hsh

/-- Witness for the amended C7 at a one-card deck with the identity
shuffle. -/
theorem c7_draw_random_spec_witness :
    ∃ drawn rest,
      drawRandom (fun d => d) [⟨Rank.Ace, Suit.Club⟩] 1 = .ok (drawn, rest) ∧
      drawn.length = 1 ∧
      rest ++ drawn = [⟨Rank.Ace, Suit.Club⟩] ∧
      (drawn ++ rest).Perm [⟨Rank.Ace, Suit.Club⟩] :=
  (c7_draw_random_spec (fun d => d) [⟨Rank.Ace, Suit.Club⟩] 1
    (by decide)).2 (by decide)

end Balatro
